import Mathlib

/-!
Verification of the retrieval and memory subsystem of a RAG assistant.

The definitions below are a shallow embedding of `src/vectordb.py` and
`src/memory_manager.py`.  Python strings are Lean `String`s; the Python
`str.strip` / `str.lstrip` primitives are modelled character-exactly on the
underlying character list (ASCII whitespace, which is all the source data
uses).  External collaborators (the ChromaDB collection, the embedding
model, the text splitter, the concrete memory strategy classes) are
modelled as explicit function parameters, so theorems quantify over every
behaviour of the collaborator.
-/

namespace RagAssistant

/-- Characters the Python `str.strip()` (no argument) removes: ASCII
whitespace as treated by CPython. -/
def pyIsSpace (c : Char) : Bool :=
  c == ' ' || c == '\t' || c == '\n' || c == '\x0d' || c == '\x0b' || c == '\x0c'

/-- Python `s.strip()`: remove whitespace from both ends. -/
def pyStrip (s : String) : String :=
  ⟨((s.data.dropWhile pyIsSpace).reverse.dropWhile pyIsSpace).reverse⟩

/-- Python `s.lstrip(cs)`: remove any of the characters `cs` from the left edge. -/
def pyLstrip (cs : List Char) (s : String) : String :=
  ⟨s.data.dropWhile (fun c => cs.contains c)⟩

/-- The punctuation set of `lstrip(".,;:!? ")` in `vectordb.py`. -/
def dedupPunctuation : List Char := ['.', ',', ';', ':', '!', '?', ' ']

/-- The normalization `chunk.strip().lstrip(".,;:!? ")` used both by
`VectorDB._filter_duplicate_chunks` and by `VectorDB._insert_chunks_into_db`. -/
def normalizeChunk (s : String) : String :=
  pyLstrip dedupPunctuation (pyStrip s)

/-- Chunk metadata `{title, filename, tags}` attached by `VectorDB._chunk_documents`. -/
structure Meta where
  title : String
  filename : String
  tags : String
deriving DecidableEq

/-- A document given as a dict: `content` is required (`doc["content"]`),
the other keys are read with `doc.get(key, "")`. -/
structure DocDict where
  content : String
  title : Option String
  filename : Option String
  tags : Option String

/-- An input document of `add_documents`: a plain string or a dict. -/
inductive Document where
  | plain (s : String)
  | record (d : DocDict)

/-- Content of a document: `doc["content"] if isinstance(doc, dict) else doc`. -/
def Document.content : Document → String
  | .plain s => s
  | .record d => d.content

/-- Declared title of a document: `doc.get("title", "") if isinstance(doc, dict) else ""`. -/
def Document.declaredTitle : Document → String
  | .plain _ => ""
  | .record d => d.title.getD ""

/-- Metadata attached to each chunk of a document by `VectorDB._chunk_documents`. -/
def Document.meta : Document → Meta
  | .plain _ => ⟨"", "", ""⟩
  | .record d => ⟨d.title.getD "", d.filename.getD "", d.tags.getD ""⟩

/-- `VectorDB._chunk_documents`: split every document with the text splitter
(an external collaborator, passed as `split`), drop chunks whose stripped
text equals the stripped declared title, and pair each kept chunk with its
metadata. -/
def chunkDocuments (split : String → List String) (docs : List Document) :
    List (String × Meta) :=
  docs.flatMap (fun doc =>
    ((split doc.content).filter
        (fun chunk => pyStrip chunk ≠ pyStrip doc.declaredTitle)).map
      (fun chunk => (chunk, doc.meta)))

/-- A stored vector record `(id, embedding, chunk_text, metadata)` of the
ChromaDB collection. -/
structure Record where
  id : String
  embedding : List Int
  text : String
  metadata : Meta
deriving DecidableEq

/-- The argument tuple of one `collection.add(ids, embeddings, documents,
metadatas)` call. -/
structure AddCall where
  ids : List String
  embeddings : List (List Int)
  documents : List String
  metadatas : List Meta
deriving DecidableEq

/-- The ChromaDB `collection.query` response: each field is either absent
(`none`) or one inner list per submitted query embedding. -/
structure QueryResponse where
  documents : Option (List (List String))
  metadatas : Option (List (List Meta))
  distances : Option (List (List Int))
  ids : Option (List (List String))

/-- The mapping returned by `VectorDB.search`, with exactly the keys
`documents`, `metadatas`, `distances`, `ids`. -/
structure SearchResult where
  documents : List String
  metadatas : List Meta
  distances : List Int
  ids : List String
deriving DecidableEq

/-- The `VectorDB` state: the collection's records plus its external
collaborators (embedding model and the collection's query behaviour). -/
structure VectorDB where
  embedOne : String → List Int
  embedQueryFn : String → List Int
  queryFn : List Int → Nat → QueryResponse
  records : List Record

/-- Texts currently stored: `self.collection.get().get("documents", [])`. -/
def storeTexts (db : VectorDB) : List String :=
  db.records.map Record.text

/-- Second pass of `VectorDB._filter_duplicate_chunks`: remove duplicates
within the current batch; `seen` is the set of normalized texts of earlier
kept chunks and first occurrences win. -/
def dedupFinalPass (seen : List String) : List (String × Meta) → List (String × Meta)
  | [] => []
  | (chunkText, metadata) :: rest =>
    let normalizedText := normalizeChunk chunkText
    if normalizedText ∈ seen then dedupFinalPass seen rest
    else (chunkText, metadata) :: dedupFinalPass (normalizedText :: seen) rest

/-- `VectorDB._filter_duplicate_chunks`: drop chunks whose normalized text is
already a stored document text, then drop in-batch duplicates. -/
def filterDuplicateChunks (existingTexts : List String)
    (chunks : List (String × Meta)) : List (String × Meta) :=
  dedupFinalPass []
    (chunks.filter (fun chunk => !existingTexts.contains (normalizeChunk chunk.1)))

/-- The ChromaDB collection `add` zips the four parallel arrays into stored
records (the arrays it receives here always have equal length). -/
def zipRecords : List String → List (List Int) → List String → List Meta → List Record
  | i :: is, e :: es, t :: ts, m :: ms => ⟨i, e, t, m⟩ :: zipRecords is es ts ms
  | _, _, _, _ => []

/-- `VectorDB._insert_chunks_into_db`: deduplicate, and if anything is left
assign ids `document_<idx>` for `idx in range(count, count + n)`, normalize
the chunk texts destructively, embed them in one batch call, and append to
the collection.  Returns the new state and the `collection.add` call made
(`none` when all chunks were duplicates and no mutation happened). -/
def insertChunksIntoDb (db : VectorDB) (chunks : List (String × Meta)) :
    VectorDB × Option AddCall :=
  let deduplicatedChunks := filterDuplicateChunks (storeTexts db) chunks
  match deduplicatedChunks with
  | [] => (db, none)
  | _ :: _ =>
    let nextId := db.records.length
    let keys := (List.range' nextId deduplicatedChunks.length).map
      (fun idx => "document_" ++ Nat.repr idx)
    let chunkTexts := deduplicatedChunks.map (fun chunk => normalizeChunk chunk.1)
    let metadata := deduplicatedChunks.map Prod.snd
    let embeddings := chunkTexts.map db.embedOne
    ({ db with records := db.records ++ zipRecords keys embeddings chunkTexts metadata },
      some ⟨keys, embeddings, chunkTexts, metadata⟩)

/-- `VectorDB.add_documents`: chunk the documents and insert. -/
def addDocuments (split : String → List String) (db : VectorDB)
    (docs : List Document) : VectorDB :=
  (insertChunksIntoDb db (chunkDocuments split docs)).1

/-- The `safe_get` helper of `VectorDB._extract_search_results`:
`results.get(key, [[]])[0] if results.get(key) else []` — a missing key or
an empty outer list is falsy and yields `[]`, otherwise the first inner
list is taken. -/
def safeGet {α : Type} : Option (List (List α)) → List α
  | none => []
  | some [] => []
  | some (first :: _) => first

/-- `VectorDB._extract_search_results`. -/
def extractSearchResults (results : QueryResponse) :
    List String × List Meta × List Int × List String :=
  (safeGet results.documents, safeGet results.metadatas,
    safeGet results.distances, safeGet results.ids)

/-- `VectorDB.search`: embed the query, query the collection, unwrap the
per-query nesting, and return the four result lists.  (The similarity
`1 - distance` computed in the source is only logged, never returned.) -/
def VectorDB.search (db : VectorDB) (query : String) (nResults : Nat) : SearchResult :=
  let queryEmbedding := db.embedQueryFn query
  let results := db.queryFn queryEmbedding nResults
  let extracted := extractSearchResults results
  { documents := extracted.1, metadatas := extracted.2.1,
    distances := extracted.2.2.1, ids := extracted.2.2.2 }

/-! Embedding of `src/memory_manager.py`.  The concrete strategy classes
(`SlidingWindowMemory`, `SimpleBufferMemory`, `SummaryMemory`) live in
modules outside the given sources; a strategy instance is modelled
abstractly as a state of type `σ` together with its `save_context` /
`load_memory_variables` methods, each of which may raise (modelled as
`Except`).  Constructors are parameters recording the arguments they are
called with; a raising constructor is one returning `Except.error`. -/

/-- The `parameters` sub-dictionary of one strategy's configuration; each
key may be absent (`dict.get` with a default is used by the source). -/
structure Params where
  windowSize : Option Nat
  memoryKey : Option String
  maxMessages : Option Nat
  summaryPrompt : Option String

/-- One strategy's configuration dictionary: the `parameters` key may be absent. -/
structure StrategyConfig where
  parameters : Option Params

/-- The empty dictionary `{}` used as fallback configuration. -/
def emptyParams : Params := ⟨none, none, none, none⟩

/-- The empty configuration `{}` returned on any configuration failure. -/
def emptyConfig : StrategyConfig := ⟨none⟩

/-- `config.get("parameters", {})`. -/
def paramsOf (config : StrategyConfig) : Params :=
  config.parameters.getD emptyParams

/-- A live memory strategy instance: its internal state and its two methods,
either of which may raise. -/
structure MemoryStrategy (σ : Type) where
  state : σ
  saveContextFn : σ → String → String → Except String σ
  loadMemoryVariablesFn : σ → Except String (List (String × String))

/-- The `MemoryManager` state after construction. -/
structure MemoryManager (σ : Type) where
  strategy : String
  config : StrategyConfig
  memory : Option (MemoryStrategy σ)

/-- Python `strategies.get(name, ...)` on the parsed YAML mapping,
modelled as association-list lookup. -/
def lookupStrategy (name : String) :
    List (String × StrategyConfig) → Option StrategyConfig
  | [] => none
  | (key, value) :: rest => if key = name then some value else lookupStrategy name rest

/-- `MemoryManager._load_memory_strategy_config`: if PyYAML is unavailable
return `{}`; if the file is absent (`FileNotFoundError`) return `{}`;
otherwise return `strategies.get(strategy, {})`.  `fileStrategies = none`
models the absent file, and a file parsing to `None` is folded into
`some []` by the source's `or {}`. -/
def loadMemoryStrategyConfig (yamlAvailable : Bool)
    (fileStrategies : Option (List (String × StrategyConfig)))
    (strategy : String) : StrategyConfig :=
  if yamlAvailable = false then emptyConfig
  else
    match fileStrategies with
    | none => emptyConfig
    | some strategies => (lookupStrategy strategy strategies).getD emptyConfig

/-- `MemoryManager._initialize_sliding_window_memory`: read `window_size`
(default 20) and `memory_key` (default `"chat_history"`), construct the
strategy, and fall back to no memory if construction raises. -/
def initializeSlidingWindowMemory {σ : Type} (config : StrategyConfig)
    (mkSliding : Nat → String → Except String (MemoryStrategy σ)) :
    Option (MemoryStrategy σ) :=
  let windowSize := (paramsOf config).windowSize.getD 20
  let memoryKey := (paramsOf config).memoryKey.getD "chat_history"
  match mkSliding windowSize memoryKey with
  | Except.ok mem => some mem
  | Except.error _ => none

/-- `MemoryManager._initialize_simple_buffer_memory`: read `memory_key`
(default `"chat_history"`) and `max_messages` (default 50), construct the
strategy, and fall back to no memory if construction raises. -/
def initializeSimpleBufferMemory {σ : Type} (config : StrategyConfig)
    (mkBuffer : String → Nat → Except String (MemoryStrategy σ)) :
    Option (MemoryStrategy σ) :=
  let memoryKey := (paramsOf config).memoryKey.getD "chat_history"
  let maxMessages := (paramsOf config).maxMessages.getD 50
  match mkBuffer memoryKey maxMessages with
  | Except.ok mem => some mem
  | Except.error _ => none

/-- The default summary prompt of `MemoryManager._initialize_summary_memory`. -/
def defaultSummaryPrompt : String :=
  "Summarize the conversation so far in a few sentences."

/-- `MemoryManager._initialize_summary_memory`: read `memory_key` (default
`"chat_history"`) and `summary_prompt` (default `defaultSummaryPrompt`),
construct the strategy, and fall back to no memory if construction raises. -/
def initializeSummaryMemory {σ : Type} (config : StrategyConfig)
    (mkSummary : String → String → Except String (MemoryStrategy σ)) :
    Option (MemoryStrategy σ) :=
  let memoryKey := (paramsOf config).memoryKey.getD "chat_history"
  let summaryPrompt := (paramsOf config).summaryPrompt.getD defaultSummaryPrompt
  match mkSummary memoryKey summaryPrompt with
  | Except.ok mem => some mem
  | Except.error _ => none

/-- `MemoryManager._initialize_memory`: dispatch on the configured strategy
name; `"none"` and any unrecognized name yield no memory (the source logs a
warning in the unrecognized branch, otherwise the two branches agree). -/
def initializeMemory {σ : Type} (strategy : String) (config : StrategyConfig)
    (mkSliding : Nat → String → Except String (MemoryStrategy σ))
    (mkBuffer : String → Nat → Except String (MemoryStrategy σ))
    (mkSummary : String → String → Except String (MemoryStrategy σ)) :
    Option (MemoryStrategy σ) :=
  if strategy = "summarization_sliding_window" then
    initializeSlidingWindowMemory config mkSliding
  else if strategy = "simple_buffer" then
    initializeSimpleBufferMemory config mkBuffer
  else if strategy = "summary" then
    initializeSummaryMemory config mkSummary
  else if strategy = "none" then
    none
  else
    none

/-- `MemoryManager.__init__`: load the strategy's configuration and
initialize the memory strategy. -/
def mkMemoryManager (σ : Type) (strategy : String) (yamlAvailable : Bool)
    (fileStrategies : Option (List (String × StrategyConfig)))
    (mkSliding : Nat → String → Except String (MemoryStrategy σ))
    (mkBuffer : String → Nat → Except String (MemoryStrategy σ))
    (mkSummary : String → String → Except String (MemoryStrategy σ)) :
    MemoryManager σ :=
  let config := loadMemoryStrategyConfig yamlAvailable fileStrategies strategy
  { strategy := strategy, config := config,
    memory := initializeMemory strategy config mkSliding mkBuffer mkSummary }

/-- `MemoryManager.add_message` with the raising semantics explicit: an
uncaught exception would be `Except.error`; the source wraps the strategy
call in `try/except` whose handler only logs, so the result is the
(possibly updated) manager wrapped in `Except.ok`. -/
def addMessageRun {σ : Type} (m : MemoryManager σ) (inputText outputText : String) :
    Except String (MemoryManager σ) :=
  match m.memory with
  | some mem =>
    match mem.saveContextFn mem.state inputText outputText with
    | Except.ok newState =>
        Except.ok { m with memory := some { mem with state := newState } }
    | Except.error _ => Except.ok m
  | none => Except.ok m

/-- `MemoryManager.get_memory_variables` with the raising semantics
explicit: a raising `load_memory_variables` is caught and `{}` is
returned; with no memory, `{}` is returned directly. -/
def getMemoryVariables {σ : Type} (m : MemoryManager σ) :
    Except String (List (String × String)) :=
  match m.memory with
  | some mem =>
    match mem.loadMemoryVariablesFn mem.state with
    | Except.ok vars => Except.ok vars
    | Except.error _ => Except.ok []
  | none => Except.ok []

/-! Specification-side definitions, for refinement comparisons.  These are
written from the spec's words (not the source) and are compared against the
source-derived definitions above. -/

/-- Worker for `claimDedupFilter`, carrying the normalized forms of all
earlier candidates of the batch. -/
def claimDedupGo (existingTexts : List String) (earlierNormalized : List String) :
    List (String × Meta) → List (String × Meta)
  | [] => []
  | (chunkText, metadata) :: rest =>
    let n := normalizeChunk chunkText
    if (∃ t ∈ existingTexts, normalizeChunk t = n) ∨ n ∈ earlierNormalized then
      claimDedupGo existingTexts (n :: earlierNormalized) rest
    else
      (chunkText, metadata) :: claimDedupGo existingTexts (n :: earlierNormalized) rest

/-- The deduplication filter exactly as the claim words it: a candidate is
removed iff its normalized form equals the NORMALIZED form of a text
already in the store, or the normalized form of an earlier candidate in the
same batch (first occurrence kept). -/
def claimDedupFilter (existingTexts : List String)
    (chunks : List (String × Meta)) : List (String × Meta) :=
  claimDedupGo existingTexts [] chunks

/-- Worker for `specDedupFilter`, carrying the normalized forms of all
earlier candidates of the batch. -/
def specDedupGo (existingTexts : List String) (earlierNormalized : List String) :
    List (String × Meta) → List (String × Meta)
  | [] => []
  | (chunkText, metadata) :: rest =>
    let n := normalizeChunk chunkText
    if n ∈ existingTexts ∨ n ∈ earlierNormalized then
      specDedupGo existingTexts (n :: earlierNormalized) rest
    else
      (chunkText, metadata) :: specDedupGo existingTexts (n :: earlierNormalized) rest

/-- The amended deduplication contract: a candidate is removed iff its
normalized form equals a text already in the store VERBATIM, or the
normalized form of an earlier candidate in the same batch (first
occurrence kept). -/
def specDedupFilter (existingTexts : List String)
    (chunks : List (String × Meta)) : List (String × Meta) :=
  specDedupGo existingTexts [] chunks

/-- Worker splitting a character list at single line breaks. -/
def splitLinesAux : List Char → List Char → List (List Char)
  | [], acc => [acc.reverse]
  | c :: rest, acc =>
    if c = '\n' then acc.reverse :: splitLinesAux rest []
    else splitLinesAux rest (c :: acc)

/-- Modelled from the spec: the Text Chunker (§4.1) is the external
`RecursiveCharacterTextSplitter`, whose code is not among the given
sources.  Per the spec, a text no larger than the chunk size stays whole;
a larger text is split at the earliest separator in the priority list that
yields fitting pieces (here, the line break, for inputs without paragraph
breaks whose lines all fit), and whitespace-only pieces are discarded. -/
def specSplit (chunkSize : Nat) (text : String) : List String :=
  if text.length ≤ chunkSize then [text]
  else
    ((splitLinesAux text.data []).filter
        (fun piece => !(pyStrip ⟨piece⟩).data.isEmpty)).map
      (fun piece => (⟨piece⟩ : String))

/-- Decimal digit characters of a natural number, most significant first;
the reference form of `Nat.toDigitsCore` used to reason about the
`document_<n>` identifiers. -/
def idealDigits (n : Nat) : List Char :=
  if n < 10 then [Nat.digitChar n]
  else idealDigits (n / 10) ++ [Nat.digitChar (n % 10)]
termination_by n
decreasing_by exact Nat.div_lt_self (by omega) (by omega)

/-- Sample metadata used by witnesses. -/
def sampleMeta : Meta := ⟨"", "", ""⟩

/-- A vector database with an empty collection, used by witnesses. -/
def emptyDb : VectorDB :=
  ⟨fun _ => [], fun _ => [], fun _ _ => ⟨some [[]], some [[]], some [[]], some [[]]⟩, []⟩

/-- A vector database holding one record, used by witnesses. -/
def dbWithFoo : VectorDB :=
  ⟨fun _ => [], fun _ => [], fun _ _ => ⟨some [[]], some [[]], some [[]], some [[]]⟩,
    [⟨"document_0", [], "foo", sampleMeta⟩]⟩

/-- One query-response field holding no matches: absent, or without
per-query lists, or with an empty first per-query list. -/
def fieldEmptyish {α : Type} (v : Option (List (List α))) : Prop :=
  v = none ∨ v = some [] ∨ ∃ rest, v = some ([] :: rest)

/-- A memory strategy whose save and load both raise, used by witnesses. -/
def failingStrategy : MemoryStrategy Unit :=
  ⟨(), fun _ _ _ => Except.error "save failed", fun _ => Except.error "load failed"⟩

/-- A memory strategy whose save and load both succeed, used by witnesses. -/
def okStrategy : MemoryStrategy Unit :=
  ⟨(), fun s _ _ => Except.ok s, fun _ => Except.ok []⟩

/-- A manager whose backing strategy raises on save and load, used by witnesses. -/
def managerWithFailingStrategy : MemoryManager Unit :=
  ⟨"simple_buffer", emptyConfig, some failingStrategy⟩

/-- Strategy constructors that always raise, used by witnesses. -/
def failMkSliding : Nat → String → Except String (MemoryStrategy Unit) :=
  fun _ _ => Except.error "construction failed"

/-- Strategy constructors that always raise, used by witnesses. -/
def failMkBuffer : String → Nat → Except String (MemoryStrategy Unit) :=
  fun _ _ => Except.error "construction failed"

/-- Strategy constructors that always raise, used by witnesses. -/
def failMkSummary : String → String → Except String (MemoryStrategy Unit) :=
  fun _ _ => Except.error "construction failed"

/-- Strategy constructors that always succeed, used by witnesses. -/
def okMkSliding : Nat → String → Except String (MemoryStrategy Unit) :=
  fun _ _ => Except.ok okStrategy

/-- Strategy constructors that always succeed, used by witnesses. -/
def okMkBuffer : String → Nat → Except String (MemoryStrategy Unit) :=
  fun _ _ => Except.ok okStrategy

/-- Strategy constructors that always succeed, used by witnesses. -/
def okMkSummary : String → String → Except String (MemoryStrategy Unit) :=
  fun _ _ => Except.ok okStrategy

/-! Theorems. -/

theorem digitChar_inj_lt : ∀ m < 10, ∀ n < 10, Nat.digitChar m = Nat.digitChar n → m = n := by
  decide

theorem idealDigits_lt {n : Nat} (h : n < 10) : idealDigits n = [Nat.digitChar n] := by
  rw [idealDigits]
  simp [h]

theorem idealDigits_ge {n : Nat} (h : ¬ n < 10) :
    idealDigits n = idealDigits (n / 10) ++ [Nat.digitChar (n % 10)] := by
  rw [idealDigits]
  simp [h]

theorem idealDigits_ne_nil (n : Nat) : idealDigits n ≠ [] := by
  by_cases h : n < 10
  · rw [idealDigits_lt h]
    simp
  · rw [idealDigits_ge h]
    simp

theorem toDigitsCore_eq_idealDigits (f : Nat) :
    ∀ n l, n < f → Nat.toDigitsCore 10 f n l = idealDigits n ++ l := by
  induction f with
  | zero => intro n l h; omega
  | succ f ih =>
    intro n l h
    by_cases h10 : n / 10 = 0
    · have hn : n < 10 := by omega
      simp only [Nat.toDigitsCore, h10, if_true]
      rw [idealDigits_lt hn, Nat.mod_eq_of_lt hn]
      simp
    · have hdiv : n / 10 < n := Nat.div_lt_self (by omega) (by omega)
      simp only [Nat.toDigitsCore, h10, if_false]
      rw [ih (n / 10) (Nat.digitChar (n % 10) :: l) (by omega)]
      have hsplit : idealDigits n = idealDigits (n / 10) ++ [Nat.digitChar (n % 10)] :=
        idealDigits_ge (by omega)
      rw [hsplit]
      simp

theorem idealDigits_injective : ∀ m n : Nat, idealDigits m = idealDigits n → m = n := by
  intro m
  induction m using Nat.strong_induction_on with
  | _ m ih =>
    intro n h
    by_cases hm : m < 10
    · by_cases hn : n < 10
      · rw [idealDigits_lt hm, idealDigits_lt hn] at h
        exact digitChar_inj_lt m hm n hn (List.singleton_injective h)
      · rw [idealDigits_lt hm, idealDigits_ge hn] at h
        obtain ⟨c, cs, hcons⟩ := List.exists_cons_of_ne_nil (idealDigits_ne_nil (n / 10))
        rw [hcons] at h
        simp at h
    · by_cases hn : n < 10
      · rw [idealDigits_ge hm, idealDigits_lt hn] at h
        obtain ⟨c, cs, hcons⟩ := List.exists_cons_of_ne_nil (idealDigits_ne_nil (m / 10))
        rw [hcons] at h
        simp at h
      · rw [idealDigits_ge hm, idealDigits_ge hn] at h
        have hparts := List.append_inj' h (by simp)
        have hdiv : m / 10 = n / 10 :=
          ih (m / 10) (Nat.div_lt_self (by omega) (by omega)) (n / 10) hparts.1
        have hmod : m % 10 = n % 10 := by
          have := hparts.2
          simp at this
          exact digitChar_inj_lt (m % 10) (by omega) (n % 10) (by omega) this
        omega

theorem natRepr_eq_idealDigits (n : Nat) : Nat.repr n = (idealDigits n).asString := by
  show (Nat.toDigits 10 n).asString = (idealDigits n).asString
  rw [Nat.toDigits, toDigitsCore_eq_idealDigits (n + 1) n [] (by omega)]
  simp

theorem natRepr_injective {a b : Nat} (h : Nat.repr a = Nat.repr b) : a = b := by
  rw [natRepr_eq_idealDigits, natRepr_eq_idealDigits] at h
  exact idealDigits_injective a b (congrArg String.data h)

theorem documentId_injective {a b : Nat}
    (h : "document_" ++ Nat.repr a = "document_" ++ Nat.repr b) : a = b := by
  have h2 := congrArg String.data h
  simp only [String.data_append] at h2
  have h3 : (Nat.repr a).data = (Nat.repr b).data := List.append_cancel_left h2
  exact natRepr_injective (String.ext h3)

theorem dedupFinalPass_eq_specDedupGo (existing : List String) :
    ∀ (l : List (String × Meta)) (seen prev : List String),
      (∀ x ∈ prev, x ∈ seen ∨ x ∈ existing) →
      (∀ x ∈ seen, x ∈ prev) →
      dedupFinalPass seen (l.filter (fun c => !existing.contains (normalizeChunk c.1)))
        = specDedupGo existing prev l := by
  intro l
  induction l with
  | nil =>
    intro seen prev h1 h2
    simp [dedupFinalPass, specDedupGo]
  | cons hd rest ih =>
    intro seen prev h1 h2
    obtain ⟨t, m⟩ := hd
    by_cases hex : normalizeChunk t ∈ existing
    · have hc : (!existing.contains (normalizeChunk t)) = false := by
        simp [List.contains, List.elem_iff, hex]
      rw [List.filter_cons, hc]
      simp only [Bool.false_eq_true, if_false]
      rw [specDedupGo]
      simp only [if_pos (Or.inl hex)]
      exact ih seen (normalizeChunk t :: prev)
        (by
          intro x hx
          rcases List.mem_cons.mp hx with rfl | hx
          · exact Or.inr hex
          · exact h1 x hx)
        (fun x hx => List.mem_cons_of_mem _ (h2 x hx))
    · have hc : (!existing.contains (normalizeChunk t)) = true := by
        simp [List.contains, List.elem_iff, hex]
      rw [List.filter_cons, hc]
      simp only [if_true]
      by_cases hseen : normalizeChunk t ∈ seen
      · rw [dedupFinalPass]
        simp only [if_pos hseen]
        rw [specDedupGo]
        simp only [if_pos (Or.inr (h2 _ hseen))]
        exact ih seen (normalizeChunk t :: prev)
          (by
            intro x hx
            rcases List.mem_cons.mp hx with rfl | hx
            · exact Or.inl hseen
            · exact h1 x hx)
          (fun x hx => List.mem_cons_of_mem _ (h2 x hx))
      · have hprev : normalizeChunk t ∉ prev := by
          intro hp
          rcases h1 _ hp with h | h
          · exact hseen h
          · exact hex h
        rw [dedupFinalPass]
        simp only [if_neg hseen]
        have hcond : ¬(normalizeChunk t ∈ existing ∨ normalizeChunk t ∈ prev) := by
          intro hor
          rcases hor with h | h
          · exact hex h
          · exact hprev h
        rw [specDedupGo]
        simp only [if_neg hcond]
        have hrec := ih (normalizeChunk t :: seen) (normalizeChunk t :: prev)
          (by
            intro x hx
            rcases List.mem_cons.mp hx with rfl | hx
            · exact Or.inl (List.mem_cons_self _ _)
            · rcases h1 x hx with h | h
              · exact Or.inl (List.mem_cons_of_mem _ h)
              · exact Or.inr h)
          (by
            intro x hx
            rcases List.mem_cons.mp hx with rfl | hx
            · exact List.mem_cons_self _ _
            · exact List.mem_cons_of_mem _ (h2 x hx))
        rw [hrec]

theorem dedupFinalPass_coverage :
    ∀ (l : List (String × Meta)) (seen : List String) (c : String × Meta), c ∈ l →
      normalizeChunk c.1 ∈ seen
        ∨ normalizeChunk c.1 ∈ (dedupFinalPass seen l).map (fun p => normalizeChunk p.1) := by
  intro l
  induction l with
  | nil => intro seen c hc; simp at hc
  | cons hd rest ih =>
    intro seen c hc
    obtain ⟨t, m⟩ := hd
    by_cases hseen : normalizeChunk t ∈ seen
    · rw [dedupFinalPass]
      simp only [if_pos hseen]
      rcases List.mem_cons.mp hc with rfl | hrest
      · exact Or.inl hseen
      · exact ih seen c hrest
    · rw [dedupFinalPass]
      simp only [if_neg hseen]
      rcases List.mem_cons.mp hc with rfl | hrest
      · right
        simp
      · rcases ih (normalizeChunk t :: seen) c hrest with h | h
        · rcases List.mem_cons.mp h with heq | hs
          · right
            simp [heq]
          · exact Or.inl hs
        · right
          simp only [List.map_cons, List.mem_cons]
          exact Or.inr h

theorem filterDuplicateChunks_coverage (existing : List String)
    (chunks : List (String × Meta)) :
    ∀ c ∈ chunks,
      normalizeChunk c.1 ∈ existing
        ∨ normalizeChunk c.1
            ∈ (filterDuplicateChunks existing chunks).map (fun p => normalizeChunk p.1) := by
  intro c hc
  by_cases hex : normalizeChunk c.1 ∈ existing
  · exact Or.inl hex
  · right
    have hmem : c ∈ chunks.filter (fun c => !existing.contains (normalizeChunk c.1)) := by
      rw [List.mem_filter]
      refine ⟨hc, ?_⟩
      simp [List.contains, List.elem_iff, hex]
    rcases dedupFinalPass_coverage _ [] c hmem with h | h
    · simp at h
    · exact h

theorem filterDuplicateChunks_eq_nil (existing : List String)
    (chunks : List (String × Meta))
    (h : ∀ c ∈ chunks, normalizeChunk c.1 ∈ existing) :
    filterDuplicateChunks existing chunks = [] := by
  unfold filterDuplicateChunks
  have hfil : chunks.filter (fun c => !existing.contains (normalizeChunk c.1)) = [] := by
    rw [List.filter_eq_nil_iff]
    intro c hc
    simp [List.contains, List.elem_iff, h c hc]
  rw [hfil]
  rfl

theorem zipRecords_map_text :
    ∀ (is : List String) (es : List (List Int)) (ts : List String) (ms : List Meta),
      is.length = ts.length → es.length = ts.length → ms.length = ts.length →
      (zipRecords is es ts ms).map Record.text = ts := by
  intro is es ts ms
  induction ts generalizing is es ms with
  | nil =>
    intro h1 h2 h3
    rw [List.length_nil, List.length_eq_zero] at h1 h2 h3
    subst h1; subst h2; subst h3
    rfl
  | cons t ts ih =>
    intro h1 h2 h3
    cases is with
    | nil => simp at h1
    | cons i is =>
      cases es with
      | nil => simp at h2
      | cons e es =>
        cases ms with
        | nil => simp at h3
        | cons m ms =>
          simp only [List.length_cons, Nat.succ_inj] at h1 h2 h3
          rw [zipRecords]
          simp only [List.map_cons]
          rw [ih is es ms h1 h2 h3]

theorem storeTexts_insertChunksIntoDb (db : VectorDB) (chunks : List (String × Meta)) :
    storeTexts (insertChunksIntoDb db chunks).1
      = storeTexts db
        ++ (filterDuplicateChunks (storeTexts db) chunks).map (fun c => normalizeChunk c.1) := by
  unfold insertChunksIntoDb
  cases hd : filterDuplicateChunks (storeTexts db) chunks with
  | nil => simp
  | cons c cs =>
    simp only []
    unfold storeTexts
    simp only [List.map_append]
    rw [zipRecords_map_text]
    · simp [List.length_range']
    · simp
    · simp

/-- C1: Idempotent ingestion — for every corpus (and any splitter behaviour
and starting store), calling `add_documents` a second time with the
identical document set leaves the store content exactly as it was after the
first call; the second call's deduplicated insert set is empty, so no chunk
is stored twice. -/
theorem ingestion_idempotent (split : String → List String) (db : VectorDB)
    (docs : List Document) :
    filterDuplicateChunks (storeTexts (addDocuments split db docs))
        (chunkDocuments split docs) = []
    ∧ addDocuments split (addDocuments split db docs) docs = addDocuments split db docs := by
  have hempty : filterDuplicateChunks (storeTexts (addDocuments split db docs))
      (chunkDocuments split docs) = [] := by
    apply filterDuplicateChunks_eq_nil
    intro c hc
    have hcov := filterDuplicateChunks_coverage (storeTexts db) (chunkDocuments split docs) c hc
    have hst : storeTexts (addDocuments split db docs)
        = storeTexts db
          ++ (filterDuplicateChunks (storeTexts db) (chunkDocuments split docs)).map
              (fun c => normalizeChunk c.1) :=
      storeTexts_insertChunksIntoDb db (chunkDocuments split docs)
    rw [hst]
    rcases hcov with h | h
    · exact List.mem_append_left _ h
    · exact List.mem_append_right _ h
  refine ⟨hempty, ?_⟩
  show (insertChunksIntoDb (addDocuments split db docs) (chunkDocuments split docs)).1
    = addDocuments split db docs
  rw [insertChunksIntoDb]
  simp only [hempty]

/-- C2 (counterexample): the claim's dedup contract — compare the candidate's
normalized form with the NORMALIZED form of every stored text — disagrees
with the code on a reachable store.  Inserting the chunk `".\tfoo"` stores
the normalized text `"\tfoo"` (normalization is not idempotent: stripping
the leading dot exposes a tab).  The claim then demands that the candidate
`"foo"` be removed as a duplicate, but the code keeps it. -/
theorem dedupFilter_claim_counterexample :
    claimDedupFilter (storeTexts (insertChunksIntoDb emptyDb [(".\tfoo", sampleMeta)]).1)
        [("foo", sampleMeta)] = []
    ∧ filterDuplicateChunks (storeTexts (insertChunksIntoDb emptyDb [(".\tfoo", sampleMeta)]).1)
        [("foo", sampleMeta)] = [("foo", sampleMeta)] := by
  constructor
  · decide
  · decide

/-- C2 (amended): the deduplication filter contract with the store-side
comparison taken verbatim — normalization is strip surrounding whitespace
then strip `. , ; : ! ?` and spaces from the left edge; a candidate is
removed iff its normalized form equals a text already in the store
verbatim, or the normalized form of an earlier candidate in the same batch
(first occurrence kept, later ones dropped). -/
theorem dedupFilter_contract (existing : List String) (chunks : List (String × Meta)) :
    filterDuplicateChunks existing chunks = specDedupFilter existing chunks :=
  dedupFinalPass_eq_specDedupGo existing chunks [] []
    (by intro x hx; simp at hx) (by intro x hx; simp at hx)

/-- C8: whenever the deduplicated chunk set is empty — including when
`add_documents` is called with documents yielding only duplicate chunks —
no `collection.add` call is made, the store content is unchanged, and the
operation completes normally. -/
theorem noMutation_on_all_duplicates (split : String → List String) (db : VectorDB)
    (docs : List Document) (chunks : List (String × Meta))
    (h1 : filterDuplicateChunks (storeTexts db) chunks = [])
    (h2 : filterDuplicateChunks (storeTexts db) (chunkDocuments split docs) = []) :
    insertChunksIntoDb db chunks = (db, none) ∧ addDocuments split db docs = db := by
  constructor
  · rw [insertChunksIntoDb]
    simp only [h1]
  · rw [addDocuments, insertChunksIntoDb]
    simp only [h2]

/-- Witness for C8 at a concrete store and an all-duplicate batch. -/
theorem noMutation_on_all_duplicates_witness :
    insertChunksIntoDb dbWithFoo [(". foo", sampleMeta)] = (dbWithFoo, none)
    ∧ addDocuments (fun s => [s]) dbWithFoo [Document.plain "foo"] = dbWithFoo :=
  noMutation_on_all_duplicates (fun s => [s]) dbWithFoo [Document.plain "foo"]
    [(". foo", sampleMeta)] (by decide) (by decide)

/-- C7: when a non-empty deduplicated set of n chunks is inserted and the
store currently holds c records, the `collection.add` call receives the
identifiers `document_<c>, ..., document_<c+n-1>` in order (derived only
from the store size at insertion time), existing records are untouched
(only appended to), and — whenever the existing identifiers follow the
`document_<j>, j < c` discipline this insertion maintains — no new
identifier reuses an existing one. -/
theorem identifier_assignment (db : VectorDB) (chunks : List (String × Meta))
    (h : filterDuplicateChunks (storeTexts db) chunks ≠ []) :
    ∃ call : AddCall,
      (insertChunksIntoDb db chunks).2 = some call
      ∧ call.ids
          = (List.range (filterDuplicateChunks (storeTexts db) chunks).length).map
              (fun i => "document_" ++ Nat.repr (db.records.length + i))
      ∧ (insertChunksIntoDb db chunks).1.records
          = db.records ++ zipRecords call.ids call.embeddings call.documents call.metadatas
      ∧ ((∀ r ∈ db.records, ∃ j, j < db.records.length ∧ r.id = "document_" ++ Nat.repr j) →
          ∀ s ∈ call.ids, ∀ r ∈ db.records, s ≠ r.id) := by
  cases hd : filterDuplicateChunks (storeTexts db) chunks with
  | nil => exact absurd hd h
  | cons c cs =>
    rw [insertChunksIntoDb]
    simp only [hd]
    refine ⟨_, rfl, ?_, rfl, ?_⟩
    · rw [List.range'_eq_map_range, List.map_map]
      rfl
    · intro hinv s hs r hr heq
      rw [List.mem_map] at hs
      obtain ⟨idx, hidx, rfl⟩ := hs
      rw [List.mem_range'] at hidx
      obtain ⟨i, hi, rfl⟩ := hidx
      obtain ⟨j, hj, hrid⟩ := hinv r hr
      rw [hrid] at heq
      have := documentId_injective heq
      omega

/-- Witness for C7: inserting one fresh chunk into a store of one record. -/
theorem identifier_assignment_witness :
    ∃ call : AddCall,
      (insertChunksIntoDb dbWithFoo [("bar", sampleMeta)]).2 = some call
      ∧ call.ids
          = (List.range (filterDuplicateChunks (storeTexts dbWithFoo)
              [("bar", sampleMeta)]).length).map
              (fun i => "document_" ++ Nat.repr (dbWithFoo.records.length + i))
      ∧ (insertChunksIntoDb dbWithFoo [("bar", sampleMeta)]).1.records
          = dbWithFoo.records
            ++ zipRecords call.ids call.embeddings call.documents call.metadatas
      ∧ ((∀ r ∈ dbWithFoo.records,
            ∃ j, j < dbWithFoo.records.length ∧ r.id = "document_" ++ Nat.repr j) →
          ∀ s ∈ call.ids, ∀ r ∈ dbWithFoo.records, s ≠ r.id) :=
  identifier_assignment dbWithFoo [("bar", sampleMeta)] (by decide)

/-- C9: for every chunk surviving deduplication, the text handed to the
store — both as the persisted document and as the input of the one batch
embedding call — is exactly the chunk's normalized form (the dedup
normalization applied destructively), and the ids/embeddings/documents/
metadatas arrays of the `collection.add` call have equal length. -/
theorem storage_normalization (db : VectorDB) (chunks : List (String × Meta))
    (h : filterDuplicateChunks (storeTexts db) chunks ≠ []) :
    ∃ call : AddCall,
      (insertChunksIntoDb db chunks).2 = some call
      ∧ call.documents
          = (filterDuplicateChunks (storeTexts db) chunks).map
              (fun c => normalizeChunk c.1)
      ∧ call.embeddings = call.documents.map db.embedOne
      ∧ call.metadatas = (filterDuplicateChunks (storeTexts db) chunks).map Prod.snd
      ∧ call.ids.length = call.documents.length
      ∧ call.embeddings.length = call.documents.length
      ∧ call.metadatas.length = call.documents.length := by
  cases hd : filterDuplicateChunks (storeTexts db) chunks with
  | nil => exact absurd hd h
  | cons c cs =>
    rw [insertChunksIntoDb]
    simp only [hd]
    exact ⟨_, rfl, rfl, rfl, rfl, by simp, by simp, by simp⟩

/-- Witness for C9: inserting one fresh chunk with leading punctuation. -/
theorem storage_normalization_witness :
    ∃ call : AddCall,
      (insertChunksIntoDb dbWithFoo [(". bar", sampleMeta)]).2 = some call
      ∧ call.documents
          = (filterDuplicateChunks (storeTexts dbWithFoo) [(". bar", sampleMeta)]).map
              (fun c => normalizeChunk c.1)
      ∧ call.embeddings = call.documents.map dbWithFoo.embedOne
      ∧ call.metadatas
          = (filterDuplicateChunks (storeTexts dbWithFoo) [(". bar", sampleMeta)]).map Prod.snd
      ∧ call.ids.length = call.documents.length
      ∧ call.embeddings.length = call.documents.length
      ∧ call.metadatas.length = call.documents.length :=
  storage_normalization dbWithFoo [(". bar", sampleMeta)] (by decide)

/-- C5 (counterexample): the claim's "in particular" instance fails — a
document passed as a plain string whose first line is `"My Title"` yields a
chunk whose trimmed text equals `"My Title"`, because the code compares
chunks against the declared title only, and a plain string has no declared
title.  The splitter behaviour is the spec-modelled `specSplit`. -/
theorem title_exclusion_counterexample :
    (splitLinesAux ("My Title\nA body of text.").data []).head? = some "My Title".data
    ∧ ("My Title", (⟨"", "", ""⟩ : Meta))
        ∈ chunkDocuments (specSplit 20) [Document.plain "My Title\nA body of text."]
    ∧ pyStrip "My Title" = "My Title" := by
  refine ⟨by decide, by decide, by decide⟩

/-- C5 (amended): for every document and every splitter behaviour, no chunk
produced by the chunking step has stripped text equal to the stripped
DECLARED title of its document (recorded in the chunk's metadata); a
plain-string document has empty declared title, so only whitespace-only
chunks are excluded for it. -/
theorem title_exclusion (split : String → List String) (docs : List Document)
    (p : String × Meta) (hp : p ∈ chunkDocuments split docs) :
    pyStrip p.1 ≠ pyStrip p.2.title := by
  unfold chunkDocuments at hp
  rw [List.mem_flatMap] at hp
  obtain ⟨doc, hdoc, hmem⟩ := hp
  rw [List.mem_map] at hmem
  obtain ⟨chunk, hchunk, rfl⟩ := hmem
  rw [List.mem_filter] at hchunk
  have hneq : pyStrip chunk ≠ pyStrip doc.declaredTitle := by
    have := hchunk.2
    simpa using this
  have htitle : (doc.meta).title = doc.declaredTitle := by
    cases doc <;> rfl
  simpa [htitle] using hneq

/-- Witness for C5's amended statement at a concrete document and chunk. -/
theorem title_exclusion_witness :
    pyStrip ("hello", (⟨"", "", ""⟩ : Meta)).1 ≠ pyStrip ("hello", (⟨"", "", ""⟩ : Meta)).2.title :=
  title_exclusion (fun s => [s]) [Document.plain "hello"] ("hello", ⟨"", "", ""⟩) (by decide)

/-- Auxiliary: a response field with no matches extracts to the empty list. -/
theorem safeGet_eq_nil {α : Type} (v : Option (List (List α)))
    (hv : fieldEmptyish v) : safeGet v = [] := by
  rcases hv with rfl | rfl | ⟨rest, rfl⟩ <;> rfl

/-- C6: when the store's query response holds no matches for the query (as
on a store with zero records) or omits a field, `search` returns a result
with exactly the keys `documents`, `metadatas`, `distances`, `ids`, each
bound to an empty list, and completes normally. -/
theorem search_empty_store (db : VectorDB) (q : String) (n : Nat)
    (hdoc : fieldEmptyish (db.queryFn (db.embedQueryFn q) n).documents)
    (hmeta : fieldEmptyish (db.queryFn (db.embedQueryFn q) n).metadatas)
    (hdist : fieldEmptyish (db.queryFn (db.embedQueryFn q) n).distances)
    (hids : fieldEmptyish (db.queryFn (db.embedQueryFn q) n).ids) :
    db.search q n = ⟨[], [], [], []⟩ := by
  rw [VectorDB.search]
  rw [extractSearchResults]
  rw [safeGet_eq_nil _ hdoc, safeGet_eq_nil _ hmeta, safeGet_eq_nil _ hdist,
    safeGet_eq_nil _ hids]

/-- Witness for C6: a search against a database with zero records whose
collection answers in ChromaDB's empty-store shape (`[[]]` per field). -/
theorem search_empty_store_witness :
    emptyDb.records = [] ∧ emptyDb.search "What is AI?" 5 = ⟨[], [], [], []⟩ :=
  ⟨rfl,
    search_empty_store emptyDb "What is AI?" 5 (Or.inr (Or.inr ⟨[], rfl⟩))
      (Or.inr (Or.inr ⟨[], rfl⟩)) (Or.inr (Or.inr ⟨[], rfl⟩)) (Or.inr (Or.inr ⟨[], rfl⟩))⟩

/-- C3: memory operations never raise — for every manager state and every
behaviour of the backing strategy (including a raising save or load),
`add_message` returns normally, and `get_memory_variables` returns normally,
returning the empty mapping when memory is disabled or when the read
fails. -/
theorem memory_operations_never_raise (σ : Type) (m : MemoryManager σ)
    (i o : String) :
    (∃ m2, addMessageRun m i o = Except.ok m2)
    ∧ (∃ vars, getMemoryVariables m = Except.ok vars)
    ∧ (m.memory = none → getMemoryVariables m = Except.ok [])
    ∧ (∀ mem e, m.memory = some mem →
        mem.loadMemoryVariablesFn mem.state = Except.error e →
        getMemoryVariables m = Except.ok []) := by
  refine ⟨?_, ?_, ?_, ?_⟩
  · cases hm : m.memory with
    | none => exact ⟨m, by simp [addMessageRun, hm]⟩
    | some mem =>
      cases hs : mem.saveContextFn mem.state i o with
      | ok newState =>
        exact ⟨{ m with memory := some { mem with state := newState } },
          by simp [addMessageRun, hm, hs]⟩
      | error e => exact ⟨m, by simp [addMessageRun, hm, hs]⟩
  · cases hm : m.memory with
    | none => exact ⟨[], by simp [getMemoryVariables, hm]⟩
    | some mem =>
      cases hl : mem.loadMemoryVariablesFn mem.state with
      | ok vars => exact ⟨vars, by simp [getMemoryVariables, hm, hl]⟩
      | error e => exact ⟨[], by simp [getMemoryVariables, hm, hl]⟩
  · intro hm
    simp [getMemoryVariables, hm]
  · intro mem e hm hl
    simp [getMemoryVariables, hm, hl]

/-- Witness for C3 at a manager whose strategy raises on save and load. -/
theorem memory_operations_never_raise_witness :
    (∃ m2, addMessageRun managerWithFailingStrategy "hi" "there" = Except.ok m2)
    ∧ (∃ vars, getMemoryVariables managerWithFailingStrategy = Except.ok vars)
    ∧ (managerWithFailingStrategy.memory = none →
        getMemoryVariables managerWithFailingStrategy = Except.ok [])
    ∧ (∀ mem e, managerWithFailingStrategy.memory = some mem →
        mem.loadMemoryVariablesFn mem.state = Except.error e →
        getMemoryVariables managerWithFailingStrategy = Except.ok []) :=
  memory_operations_never_raise Unit managerWithFailingStrategy "hi" "there"

/-- C4: graceful degradation to DISABLED — with strategy name `"none"`, or
any unrecognized name, or a raising construction of the selected strategy,
the manager completes construction (the constructor is a total function)
with no memory instance, and in that state `add_message` is a no-op and
`get_memory_variables` returns the empty mapping. -/
theorem degradation_to_disabled (σ : Type) (strategy : String) (ya : Bool)
    (file : Option (List (String × StrategyConfig)))
    (mkSliding : Nat → String → Except String (MemoryStrategy σ))
    (mkBuffer : String → Nat → Except String (MemoryStrategy σ))
    (mkSummary : String → String → Except String (MemoryStrategy σ)) :
    (strategy = "none" →
      (mkMemoryManager σ strategy ya file mkSliding mkBuffer mkSummary).memory = none)
    ∧ (strategy ≠ "summarization_sliding_window" → strategy ≠ "simple_buffer" →
        strategy ≠ "summary" → strategy ≠ "none" →
        (mkMemoryManager σ strategy ya file mkSliding mkBuffer mkSummary).memory = none)
    ∧ (∀ e, strategy = "summarization_sliding_window" →
        mkSliding
            ((paramsOf (loadMemoryStrategyConfig ya file strategy)).windowSize.getD 20)
            ((paramsOf (loadMemoryStrategyConfig ya file strategy)).memoryKey.getD
              "chat_history")
          = Except.error e →
        (mkMemoryManager σ strategy ya file mkSliding mkBuffer mkSummary).memory = none)
    ∧ (∀ e, strategy = "simple_buffer" →
        mkBuffer
            ((paramsOf (loadMemoryStrategyConfig ya file strategy)).memoryKey.getD
              "chat_history")
            ((paramsOf (loadMemoryStrategyConfig ya file strategy)).maxMessages.getD 50)
          = Except.error e →
        (mkMemoryManager σ strategy ya file mkSliding mkBuffer mkSummary).memory = none)
    ∧ (∀ e, strategy = "summary" →
        mkSummary
            ((paramsOf (loadMemoryStrategyConfig ya file strategy)).memoryKey.getD
              "chat_history")
            ((paramsOf (loadMemoryStrategyConfig ya file strategy)).summaryPrompt.getD
              defaultSummaryPrompt)
          = Except.error e →
        (mkMemoryManager σ strategy ya file mkSliding mkBuffer mkSummary).memory = none)
    ∧ ((mkMemoryManager σ strategy ya file mkSliding mkBuffer mkSummary).memory = none →
        ∀ i o,
          addMessageRun (mkMemoryManager σ strategy ya file mkSliding mkBuffer mkSummary) i o
              = Except.ok (mkMemoryManager σ strategy ya file mkSliding mkBuffer mkSummary)
            ∧ getMemoryVariables
                (mkMemoryManager σ strategy ya file mkSliding mkBuffer mkSummary)
              = Except.ok []) := by
  refine ⟨?_, ?_, ?_, ?_, ?_, ?_⟩
  · intro h
    subst h
    rw [mkMemoryManager, initializeMemory]
    rw [if_neg (by decide), if_neg (by decide), if_neg (by decide), if_pos rfl]
  · intro h1 h2 h3 h4
    rw [mkMemoryManager, initializeMemory]
    rw [if_neg h1, if_neg h2, if_neg h3, if_neg h4]
  · intro e h he
    subst h
    rw [mkMemoryManager, initializeMemory]
    rw [if_pos rfl]
    rw [initializeSlidingWindowMemory]
    simp only [he]
  · intro e h he
    subst h
    rw [mkMemoryManager, initializeMemory]
    rw [if_neg (by decide), if_pos rfl]
    rw [initializeSimpleBufferMemory]
    simp only [he]
  · intro e h he
    subst h
    rw [mkMemoryManager, initializeMemory]
    rw [if_neg (by decide), if_neg (by decide), if_pos rfl]
    rw [initializeSummaryMemory]
    simp only [he]
  · intro hmem i o
    exact ⟨by simp [addMessageRun, hmem], by simp [getMemoryVariables, hmem]⟩

/-- Witness for C4: the `"none"` strategy, an unrecognized strategy, and a
raising construction all leave memory disabled, and the operations become
no-ops. -/
theorem degradation_to_disabled_witness :
    (mkMemoryManager Unit "none" true none failMkSliding failMkBuffer failMkSummary).memory
        = none
    ∧ (mkMemoryManager Unit "weird" true none failMkSliding failMkBuffer
          failMkSummary).memory
        = none
    ∧ (mkMemoryManager Unit "summarization_sliding_window" true none failMkSliding
          failMkBuffer failMkSummary).memory
        = none
    ∧ getMemoryVariables
          (mkMemoryManager Unit "none" true none failMkSliding failMkBuffer failMkSummary)
        = Except.ok [] :=
  ⟨(degradation_to_disabled Unit "none" true none failMkSliding failMkBuffer
      failMkSummary).1 rfl,
    (degradation_to_disabled Unit "weird" true none failMkSliding failMkBuffer
        failMkSummary).2.1 (by decide) (by decide) (by decide) (by decide),
    (degradation_to_disabled Unit "summarization_sliding_window" true none failMkSliding
        failMkBuffer failMkSummary).2.2.1 "construction failed" rfl rfl,
    ((degradation_to_disabled Unit "none" true none failMkSliding failMkBuffer
        failMkSummary).2.2.2.2.2
      ((degradation_to_disabled Unit "none" true none failMkSliding failMkBuffer
          failMkSummary).1 rfl) "hi" "there").2⟩

/-- C10: a missing configuration file, an unavailable YAML library, or a
missing strategy key yields the empty configuration, and a recognized
strategy is still constructed with the built-in defaults — window size 20,
memory key `"chat_history"`, max messages 50, and the default summary
prompt — so only `"none"`, an unrecognized name, or a raising construction
leaves memory disabled. -/
theorem missing_config_uses_defaults (σ : Type) (ya : Bool)
    (file : Option (List (String × StrategyConfig))) (strategy : String)
    (mkSliding : Nat → String → Except String (MemoryStrategy σ))
    (mkBuffer : String → Nat → Except String (MemoryStrategy σ))
    (mkSummary : String → String → Except String (MemoryStrategy σ))
    (hmissing : ya = false ∨ file = none
      ∨ ∃ strategies, file = some strategies ∧ lookupStrategy strategy strategies = none) :
    loadMemoryStrategyConfig ya file strategy = emptyConfig
    ∧ (∀ mem, strategy = "summarization_sliding_window" →
        mkSliding 20 "chat_history" = Except.ok mem →
        (mkMemoryManager σ strategy ya file mkSliding mkBuffer mkSummary).memory = some mem)
    ∧ (∀ mem, strategy = "simple_buffer" →
        mkBuffer "chat_history" 50 = Except.ok mem →
        (mkMemoryManager σ strategy ya file mkSliding mkBuffer mkSummary).memory = some mem)
    ∧ (∀ mem, strategy = "summary" →
        mkSummary "chat_history" defaultSummaryPrompt = Except.ok mem →
        (mkMemoryManager σ strategy ya file mkSliding mkBuffer mkSummary).memory = some mem) := by
  have hload : loadMemoryStrategyConfig ya file strategy = emptyConfig := by
    rcases hmissing with h | h | ⟨strategies, hfile, hlook⟩
    · subst h
      rfl
    · subst h
      cases ya <;> rfl
    · subst hfile
      cases ya
      · rfl
      · rw [loadMemoryStrategyConfig]
        rw [if_neg (by decide)]
        rw [hlook]
        rfl
  refine ⟨hload, ?_, ?_, ?_⟩
  · intro mem h hok
    subst h
    rw [mkMemoryManager, initializeMemory]
    rw [if_pos rfl]
    rw [hload, initializeSlidingWindowMemory]
    simp only [paramsOf, emptyConfig, Option.getD_none]
    simp only [emptyParams, Option.getD_none, hok]
  · intro mem h hok
    subst h
    rw [mkMemoryManager, initializeMemory]
    rw [if_neg (by decide), if_pos rfl]
    rw [hload, initializeSimpleBufferMemory]
    simp only [paramsOf, emptyConfig, Option.getD_none]
    simp only [emptyParams, Option.getD_none, hok]
  · intro mem h hok
    subst h
    rw [mkMemoryManager, initializeMemory]
    rw [if_neg (by decide), if_neg (by decide), if_pos rfl]
    rw [hload, initializeSummaryMemory]
    simp only [paramsOf, emptyConfig, Option.getD_none]
    simp only [emptyParams, Option.getD_none, hok]

/-- Witness for C10: with PyYAML unavailable, each recognized strategy is
constructed with the documented defaults. -/
theorem missing_config_uses_defaults_witness :
    loadMemoryStrategyConfig false none "summarization_sliding_window" = emptyConfig
    ∧ (mkMemoryManager Unit "summarization_sliding_window" false none okMkSliding
          okMkBuffer okMkSummary).memory
        = some okStrategy :=
  ⟨(missing_config_uses_defaults Unit false none "summarization_sliding_window"
      okMkSliding okMkBuffer okMkSummary (Or.inl rfl)).1,
    (missing_config_uses_defaults Unit false none "summarization_sliding_window"
        okMkSliding okMkBuffer okMkSummary (Or.inl rfl)).2.1 okStrategy rfl rfl⟩

end RagAssistant
